import Mathlib

/-!
Shallow embedding of the LSTM building blocks from
`Exercise 2a-Building_LSTM.ipynb` (sigmoid, lstm_step_forward,
lstm_step_backward, lstm_forward, lstm_backward), together with proofs of
the specified properties.  Dense numpy arrays of shape (n, m) are embedded
as functions `Fin n → Fin m → ℝ`; the four H-wide gate blocks of the
activation matrix live inside `Fin (4*H)` exactly as the column slices of
the source.  The single in-place update of the source
(`dnext_c += ...` in `lstm_step_backward`) is made explicit by returning
the post-call contents of each argument buffer alongside the gradients.
-/

noncomputable section

/-- A dense real matrix of shape (n, m), as in the numpy source. -/
abbrev Mat (n m : ℕ) : Type := Fin n → Fin m → ℝ

/-- A dense real vector of length n. -/
abbrev Vec (n : ℕ) : Type := Fin n → ℝ

/-- The exponential argument used by the source `sigmoid`:
`z[pos_mask] = np.exp(-x[pos_mask])`, `z[neg_mask] = np.exp(x[neg_mask])`. -/
def sigmoidExpArg (x : ℝ) : ℝ := if 0 ≤ x then -x else x

/-- The numerically stable sigmoid of the source, branching on the sign of
the input: `z` is `exp(-x)` for non-negative entries and `exp(x)` for
negative ones, `top` is `1` on the non-negative branch and `z` on the
negative branch, and the result is `top / (1 + z)`. -/
def sigmoid (x : ℝ) : ℝ :=
  let z : ℝ := Real.exp (sigmoidExpArg x)
  let top : ℝ := if 0 ≤ x then 1 else z
  top / (1 + z)

/-- The textbook logistic function `1/(1+e^-x)`, as the spec words it. -/
def logistic (x : ℝ) : ℝ := 1 / (1 + Real.exp (-x))

theorem one_add_exp_pos (x : ℝ) : 0 < 1 + Real.exp x := by
  have h := Real.exp_pos x
  linarith

theorem one_add_exp_ne_zero (x : ℝ) : 1 + Real.exp x ≠ 0 :=
  ne_of_gt (one_add_exp_pos x)

/-- On both branches the stable sigmoid agrees with the logistic function. -/
theorem sigmoid_eq_logistic (x : ℝ) : sigmoid x = logistic x := by
  unfold sigmoid logistic sigmoidExpArg
  by_cases hx : 0 ≤ x
  · simp [hx]
  · simp only [hx, if_false]
    rw [div_eq_div_iff (one_add_exp_ne_zero x) (one_add_exp_ne_zero (-x))]
    have h : Real.exp x * Real.exp (-x) = 1 := by
      rw [← Real.exp_add]
      simp
    ring_nf
    nlinarith [h]

theorem logistic_pos (x : ℝ) : 0 < logistic x := by
  unfold logistic
  positivity

theorem logistic_lt_one (x : ℝ) : logistic x < 1 := by
  unfold logistic
  rw [div_lt_one (by positivity)]
  have h := Real.exp_pos (-x)
  linarith

theorem hasDerivAt_logistic (x : ℝ) :
    HasDerivAt logistic (logistic x * (1 - logistic x)) x := by
  have hden : HasDerivAt (fun y : ℝ => 1 + Real.exp (-y))
      (-Real.exp (-x)) x := by
    have h1 : HasDerivAt (fun y : ℝ => -y) (-1 : ℝ) x := (hasDerivAt_id x).neg
    have h2 := (Real.hasDerivAt_exp (-x)).comp x h1
    have h3 : Real.exp (-x) * -1 = -Real.exp (-x) := by ring
    simpa [Function.comp, h3] using (h2.const_add 1)
  have hne : 1 + Real.exp (-x) ≠ 0 := one_add_exp_ne_zero (-x)
  have hinv := hden.inv hne
  have heq : -(-Real.exp (-x)) / (1 + Real.exp (-x)) ^ 2
      = logistic x * (1 - logistic x) := by
    unfold logistic
    field_simp
    ring
  have hfun : (fun y : ℝ => (1 + Real.exp (-y))⁻¹) = logistic := by
    funext y
    unfold logistic
    rw [one_div]
  rw [hfun, heq] at hinv
  exact hinv

theorem hasDerivAt_sigmoid (x : ℝ) :
    HasDerivAt sigmoid (sigmoid x * (1 - sigmoid x)) x := by
  have hfun : sigmoid = logistic := funext sigmoid_eq_logistic
  rw [hfun]
  exact hasDerivAt_logistic x

theorem one_sub_tanh_sq (x : ℝ) :
    1 - Real.tanh x ^ 2 = 1 / Real.cosh x ^ 2 := by
  have hc : Real.cosh x ≠ 0 := ne_of_gt (Real.cosh_pos x)
  have hid := Real.cosh_sq_sub_sinh_sq x
  rw [Real.tanh_eq_sinh_div_cosh]
  field_simp

theorem hasDerivAt_tanh (x : ℝ) :
    HasDerivAt Real.tanh (1 - Real.tanh x ^ 2) x := by
  have hc : Real.cosh x ≠ 0 := ne_of_gt (Real.cosh_pos x)
  have hdiv := (Real.hasDerivAt_sinh x).div (Real.hasDerivAt_cosh x) hc
  have hfun : (fun y : ℝ => Real.sinh y / Real.cosh y) = Real.tanh := by
    funext y
    rw [Real.tanh_eq_sinh_div_cosh]
  have heq : (Real.cosh x * Real.cosh x - Real.sinh x * Real.sinh x)
      / Real.cosh x ^ 2 = 1 - Real.tanh x ^ 2 := by
    rw [one_sub_tanh_sq]
    have hid := Real.cosh_sq_sub_sinh_sq x
    field_simp
    nlinarith [hid]
  rw [hfun, heq] at hdiv
  exact hdiv

/-- Column index of entry `j` of gate block `q` inside the (N, 4H) activation
matrix: block `q` occupies the column slice `[q*H, (q+1)*H)`, matching the
source slices `activation[:,0:H]`, `[:,H:2*H]`, `[:,2*H:3*H]`, `[:,3*H:]`. -/
def blk (H : ℕ) (q : Fin 4) (j : Fin H) : Fin (4*H) :=
  ⟨q.val * H + j.val, by
    have hq := q.isLt
    have hj := j.isLt
    calc q.val * H + j.val < q.val * H + H := by omega
      _ = (q.val + 1) * H := by ring
      _ ≤ 4 * H := Nat.mul_le_mul_right H hq⟩

/-- Position within its H-wide block of a column of the activation matrix. -/
def blkIdx {H : ℕ} (k : Fin (4*H)) : Fin H :=
  ⟨k.val % H, Nat.mod_lt _ (by have := k.isLt; omega)⟩

theorem blk_val {H : ℕ} (q : Fin 4) (j : Fin H) :
    (blk H q j).val = q.val * H + j.val := rfl

theorem blkIdx_blk {H : ℕ} (q : Fin 4) (j : Fin H) :
    blkIdx (blk H q j) = j := by
  apply Fin.ext
  show (q.val * H + j.val) % H = j.val
  rw [Nat.add_comm, Nat.add_mul_mod_self_right]
  exact Nat.mod_eq_of_lt j.isLt

/-- The step cache of the source: the tuple
`(x, prev_h, prev_c, next_h, next_c, Wx, Wh, b, activation, input, forget,
output, block_input)` returned by `lstm_step_forward`, as a record. -/
structure LSTMCache (N D H : ℕ) where
  x : Mat N D
  prev_h : Mat N H
  prev_c : Mat N H
  next_h : Mat N H
  next_c : Mat N H
  Wx : Mat D (4*H)
  Wh : Mat H (4*H)
  b : Vec (4*H)
  activation : Mat N (4*H)
  input : Mat N H
  forget : Mat N H
  output : Mat N H
  block_input : Mat N H

/-- `activation = x.dot(Wx) + prev_h.dot(Wh) + b`, the bias broadcast
across the batch dimension. -/
def lstmActivation {N D H : ℕ} (x : Mat N D) (prev_h : Mat N H)
    (Wx : Mat D (4*H)) (Wh : Mat H (4*H)) (b : Vec (4*H)) : Mat N (4*H) :=
  fun n k => (∑ d, x n d * Wx d k) + (∑ m, prev_h n m * Wh m k) + b k

/-- `input = sigmoid(activation[:,0:H])`. -/
def gateI {N H : ℕ} (a : Mat N (4*H)) : Mat N H :=
  fun n j => sigmoid (a n (blk H 0 j))

/-- `forget = sigmoid(activation[:,H:2*H])`. -/
def gateF {N H : ℕ} (a : Mat N (4*H)) : Mat N H :=
  fun n j => sigmoid (a n (blk H 1 j))

/-- `output = sigmoid(activation[:,2*H:3*H])`. -/
def gateO {N H : ℕ} (a : Mat N (4*H)) : Mat N H :=
  fun n j => sigmoid (a n (blk H 2 j))

/-- `block_input = np.tanh(activation[:,3*H:])`. -/
def gateG {N H : ℕ} (a : Mat N (4*H)) : Mat N H :=
  fun n j => Real.tanh (a n (blk H 3 j))

/-- `next_c = forget * prev_c + input * block_input`. -/
def lstmNextC {N H : ℕ} (a : Mat N (4*H)) (prev_c : Mat N H) : Mat N H :=
  fun n j => gateF a n j * prev_c n j + gateI a n j * gateG a n j

/-- `next_h = output * np.tanh(next_c)`. -/
def lstmNextH {N H : ℕ} (a : Mat N (4*H)) (prev_c : Mat N H) : Mat N H :=
  fun n j => gateO a n j * Real.tanh (lstmNextC a prev_c n j)

/-- Forward pass for a single LSTM timestep, returning
`(next_h, next_c, cache)` as in the source. -/
def lstm_step_forward {N D H : ℕ} (x : Mat N D) (prev_h prev_c : Mat N H)
    (Wx : Mat D (4*H)) (Wh : Mat H (4*H)) (b : Vec (4*H)) :
    Mat N H × Mat N H × LSTMCache N D H :=
  let a := lstmActivation x prev_h Wx Wh b
  (lstmNextH a prev_c, lstmNextC a prev_c,
    ⟨x, prev_h, prev_c, lstmNextH a prev_c, lstmNextC a prev_c, Wx, Wh, b,
      a, gateI a, gateF a, gateO a, gateG a⟩)

/-- The value held by the `dnext_c` buffer after the in-place update
`dnext_c += dnext_h*output*(1-np.tanh(next_c)**2)` of the source. -/
def lstmDCT {N D H : ℕ} (dnext_h dnext_c : Mat N H)
    (cache : LSTMCache N D H) : Mat N H :=
  fun n j => dnext_c n j
    + dnext_h n j * cache.output n j * (1 - Real.tanh (cache.next_c n j) ^ 2)

/-- The `dactivation` matrix of the backward pass: each gate's
pre-activation gradient written into that gate's column block. -/
def lstmDActivation {N D H : ℕ} (dnext_h dnext_c : Mat N H)
    (cache : LSTMCache N D H) : Mat N (4*H) :=
  fun n k =>
    if k.val < H then
      lstmDCT dnext_h dnext_c cache n (blkIdx k) * cache.block_input n (blkIdx k)
        * cache.input n (blkIdx k) * (1 - cache.input n (blkIdx k))
    else if k.val < 2*H then
      lstmDCT dnext_h dnext_c cache n (blkIdx k) * cache.prev_c n (blkIdx k)
        * cache.forget n (blkIdx k) * (1 - cache.forget n (blkIdx k))
    else if k.val < 3*H then
      dnext_h n (blkIdx k) * Real.tanh (cache.next_c n (blkIdx k))
        * cache.output n (blkIdx k) * (1 - cache.output n (blkIdx k))
    else
      lstmDCT dnext_h dnext_c cache n (blkIdx k) * cache.input n (blkIdx k)
        * (1 - cache.block_input n (blkIdx k) ^ 2)

/-- Result of `lstm_step_backward`: the six gradients of the source, plus
the post-call contents of each argument buffer (`dnext_c` is updated in
place by the source; `dnext_h` and the cache are only read). -/
structure LSTMStepGrads (N D H : ℕ) where
  dx : Mat N D
  dprev_h : Mat N H
  dprev_c : Mat N H
  dWx : Mat D (4*H)
  dWh : Mat H (4*H)
  db : Vec (4*H)
  dnext_h_after : Mat N H
  dnext_c_after : Mat N H
  cache_after : LSTMCache N D H

/-- Backward pass for a single LSTM timestep, following the source
line by line. -/
def lstm_step_backward {N D H : ℕ} (dnext_h dnext_c : Mat N H)
    (cache : LSTMCache N D H) : LSTMStepGrads N D H :=
  let dnc := lstmDCT dnext_h dnext_c cache
  let da := lstmDActivation dnext_h dnext_c cache
  ⟨fun n d => ∑ k, da n k * cache.Wx d k,
    fun n m => ∑ k, da n k * cache.Wh m k,
    fun n j => dnc n j * cache.forget n j,
    fun d k => ∑ n, cache.x n d * da n k,
    fun m k => ∑ n, cache.prev_h n m * da n k,
    fun k => ∑ n, da n k,
    dnext_h, dnc, cache⟩

theorem lstmDActivation_blk0 {N D H : ℕ} (dnext_h dnext_c : Mat N H)
    (cache : LSTMCache N D H) (n : Fin N) (j : Fin H) :
    lstmDActivation dnext_h dnext_c cache n (blk H 0 j)
      = lstmDCT dnext_h dnext_c cache n j * cache.block_input n j
        * cache.input n j * (1 - cache.input n j) := by
  have hj := j.isLt
  have h0 : ((0 : Fin 4)).val = 0 := by decide
  have hval : (blk H 0 j).val = j.val := by rw [blk_val, h0]; omega
  unfold lstmDActivation
  rw [blkIdx_blk, hval, if_pos hj]

theorem lstmDActivation_blk1 {N D H : ℕ} (dnext_h dnext_c : Mat N H)
    (cache : LSTMCache N D H) (n : Fin N) (j : Fin H) :
    lstmDActivation dnext_h dnext_c cache n (blk H 1 j)
      = lstmDCT dnext_h dnext_c cache n j * cache.prev_c n j
        * cache.forget n j * (1 - cache.forget n j) := by
  have hj := j.isLt
  have h1 : ((1 : Fin 4)).val = 1 := by decide
  have hval : (blk H 1 j).val = H + j.val := by rw [blk_val, h1]; omega
  unfold lstmDActivation
  rw [blkIdx_blk, hval, if_neg (by omega), if_pos (by omega)]

theorem lstmDActivation_blk2 {N D H : ℕ} (dnext_h dnext_c : Mat N H)
    (cache : LSTMCache N D H) (n : Fin N) (j : Fin H) :
    lstmDActivation dnext_h dnext_c cache n (blk H 2 j)
      = dnext_h n j * Real.tanh (cache.next_c n j)
        * cache.output n j * (1 - cache.output n j) := by
  have hj := j.isLt
  have h2 : ((2 : Fin 4)).val = 2 := by decide
  have hval : (blk H 2 j).val = 2*H + j.val := by rw [blk_val, h2]
  unfold lstmDActivation
  rw [blkIdx_blk, hval, if_neg (by omega), if_neg (by omega), if_pos (by omega)]

theorem lstmDActivation_blk3 {N D H : ℕ} (dnext_h dnext_c : Mat N H)
    (cache : LSTMCache N D H) (n : Fin N) (j : Fin H) :
    lstmDActivation dnext_h dnext_c cache n (blk H 3 j)
      = lstmDCT dnext_h dnext_c cache n j * cache.input n j
        * (1 - cache.block_input n j ^ 2) := by
  have hj := j.isLt
  have h3 : ((3 : Fin 4)).val = 3 := by decide
  have hval : (blk H 3 j).val = 3*H + j.val := by rw [blk_val, h3]
  unfold lstmDActivation
  rw [blkIdx_blk, hval, if_neg (by omega), if_neg (by omega), if_neg (by omega)]

/-- The running `(h, c)` state of `lstm_forward` after `t` timesteps:
`h[:,0,:] = h0`, `prev_c = np.zeros_like(h0)`, then each loop iteration
replaces the pair by the outputs of `lstm_step_forward` on slice `x[:,t,:]`.
Iterations beyond `T` leave the state unchanged (the loop runs `range(T)`). -/
def lstmStates {N T D H : ℕ} (x : Fin N → Fin T → Fin D → ℝ) (h0 : Mat N H)
    (Wx : Mat D (4*H)) (Wh : Mat H (4*H)) (b : Vec (4*H)) :
    ℕ → Mat N H × Mat N H
  | 0 => (h0, fun _ _ => 0)
  | t + 1 =>
    let p := lstmStates x h0 Wx Wh b t
    if ht : t < T then
      let r := lstm_step_forward (fun n d => x n ⟨t, ht⟩ d) p.1 p.2 Wx Wh b
      (r.1, r.2.1)
    else p

/-- The full result of the loop iteration of `lstm_forward` at timestep `t`:
`(next_h, next_c, cache)` of the step consuming the state after `t` steps. -/
def lstmStepAt {N T D H : ℕ} (x : Fin N → Fin T → Fin D → ℝ) (h0 : Mat N H)
    (Wx : Mat D (4*H)) (Wh : Mat H (4*H)) (b : Vec (4*H)) (t : Fin T) :
    Mat N H × Mat N H × LSTMCache N D H :=
  let p := lstmStates x h0 Wx Wh b t.val
  lstm_step_forward (fun n d => x n t d) p.1 p.2 Wx Wh b

/-- Forward pass over a whole sequence: hidden states for timesteps
`0 … T-1` (the caller-supplied `h0` row is dropped by the final
`h = h[:,1:,:]` of the source) and the `T` per-step caches. -/
def lstm_forward {N T D H : ℕ} (x : Fin N → Fin T → Fin D → ℝ) (h0 : Mat N H)
    (Wx : Mat D (4*H)) (Wh : Mat H (4*H)) (b : Vec (4*H)) :
    (Fin N → Fin T → Fin H → ℝ) × (Fin T → LSTMCache N D H) :=
  (fun n t j => (lstmStepAt x h0 Wx Wh b t).1 n j,
    fun t => (lstmStepAt x h0 Wx Wh b t).2.2)

/-- Spec-side chain of cell steps started from an explicit, caller-supplied
initial cell state `c0` (Section 4.4 words the invariant as: `lstm_forward`
must behave identically to explicitly passing a zero `c0`). -/
def lstmStatesFromC0 {N T D H : ℕ} (x : Fin N → Fin T → Fin D → ℝ)
    (h0 c0 : Mat N H) (Wx : Mat D (4*H)) (Wh : Mat H (4*H)) (b : Vec (4*H)) :
    ℕ → Mat N H × Mat N H
  | 0 => (h0, c0)
  | t + 1 =>
    let p := lstmStatesFromC0 x h0 c0 Wx Wh b t
    if ht : t < T then
      let r := lstm_step_forward (fun n d => x n ⟨t, ht⟩ d) p.1 p.2 Wx Wh b
      (r.1, r.2.1)
    else p

/-- Spec-side sequence forward with an explicit initial cell state. -/
def lstm_forwardFromC0 {N T D H : ℕ} (x : Fin N → Fin T → Fin D → ℝ)
    (h0 c0 : Mat N H) (Wx : Mat D (4*H)) (Wh : Mat H (4*H)) (b : Vec (4*H)) :
    (Fin N → Fin T → Fin H → ℝ) × (Fin T → LSTMCache N D H) :=
  (fun n t j =>
      (lstm_step_forward (fun n' d => x n' t d)
        (lstmStatesFromC0 x h0 c0 Wx Wh b t.val).1
        (lstmStatesFromC0 x h0 c0 Wx Wh b t.val).2 Wx Wh b).1 n j,
    fun t =>
      (lstm_step_forward (fun n' d => x n' t d)
        (lstmStatesFromC0 x h0 c0 Wx Wh b t.val).1
        (lstmStatesFromC0 x h0 c0 Wx Wh b t.val).2 Wx Wh b).2.2)

/-- The mutable loop state of `lstm_backward`: the two carried state
gradients, the accumulators, and the contents of the caller's `dh` buffer
(recorded to make the frame property provable in the embedding). -/
structure LSTMBwdState (N T D H : ℕ) where
  dprev : Mat N H
  dprev_c : Mat N H
  dx : Fin N → Fin T → Fin D → ℝ
  dWx : Mat D (4*H)
  dWh : Mat H (4*H)
  db : Vec (4*H)
  dhBuf : Fin N → Fin T → Fin H → ℝ

/-- The loop of `lstm_backward` after `k` iterations: iteration `k`
(0-based) processes timestep `T-1-k`, reading `dh[:,t,:]` from the `dh`
buffer, forming the fresh array `dh_current = dh[:,t,:] + dprev`, calling
`lstm_step_backward` (whose in-place update lands on the object passed as
`dnext_c`, namely the loop's own `dprev_c` value, which is immediately
replaced by the returned fresh `dprev_c`), writing `dx_t` into the `t`
slice of `dx` and accumulating the parameter gradients. -/
def lstmBwdLoop {N T D H : ℕ} (dh : Fin N → Fin T → Fin H → ℝ)
    (caches : Fin T → LSTMCache N D H) : ℕ → LSTMBwdState N T D H
  | 0 =>
    ⟨fun _ _ => 0, fun _ _ => 0, fun _ _ _ => 0,
      fun _ _ => 0, fun _ _ => 0, fun _ => 0, dh⟩
  | k + 1 =>
    let s := lstmBwdLoop dh caches k
    if hk : k < T then
      let t : Fin T := ⟨T - 1 - k, by omega⟩
      let g := lstm_step_backward
        (fun n j => s.dhBuf n t j + s.dprev n j) s.dprev_c (caches t)
      ⟨g.dprev_h, g.dprev_c,
        fun n t' d => if t' = t then s.dx n t' d + g.dx n d else s.dx n t' d,
        fun d c => s.dWx d c + g.dWx d c,
        fun m c => s.dWh m c + g.dWh m c,
        fun c => s.db c + g.db c,
        s.dhBuf⟩
    else s

/-- The `lstm_step_backward` call that processes timestep `t` inside
`lstm_backward` (it runs during iteration `T-1-t` of the reversed loop). -/
def bwdStepAt {N T D H : ℕ} (dh : Fin N → Fin T → Fin H → ℝ)
    (caches : Fin T → LSTMCache N D H) (t : Fin T) : LSTMStepGrads N D H :=
  let s := lstmBwdLoop dh caches (T - 1 - t.val)
  lstm_step_backward (fun n j => s.dhBuf n t j + s.dprev n j) s.dprev_c
    (caches t)

/-- Result of `lstm_backward`, together with the post-call contents of the
caller's `dh` buffer. -/
structure LSTMSeqGrads (N T D H : ℕ) where
  dx : Fin N → Fin T → Fin D → ℝ
  dh0 : Mat N H
  dWx : Mat D (4*H)
  dWh : Mat H (4*H)
  db : Vec (4*H)
  dh_after : Fin N → Fin T → Fin H → ℝ

/-- Backward pass over a whole sequence.  The source first reads
`cache[0][0].shape` to recover `D`; with `T = 0` the cache dictionary is
empty and that lookup fails, which the embedding models by returning
`none` exactly when `T = 0`. -/
def lstm_backward {N T D H : ℕ} (dh : Fin N → Fin T → Fin H → ℝ)
    (caches : Fin T → LSTMCache N D H) : Option (LSTMSeqGrads N T D H) :=
  if 0 < T then
    let s := lstmBwdLoop dh caches T
    some ⟨s.dx, fun n j => 0 + s.dprev n j, s.dWx, s.dWh, s.db, s.dhBuf⟩
  else none

/-- Spec-side activation (Section 4.2, step 1): the matrix product form
`a = x·Wx + h_prev·Wh + b` with the bias row broadcast across the batch. -/
def specActivation {N D H : ℕ} (x : Matrix (Fin N) (Fin D) ℝ)
    (prev_h : Matrix (Fin N) (Fin H) ℝ) (Wx : Matrix (Fin D) (Fin (4*H)) ℝ)
    (Wh : Matrix (Fin H) (Fin (4*H)) ℝ) (b : Vec (4*H)) :
    Matrix (Fin N) (Fin (4*H)) ℝ :=
  x * Wx + prev_h * Wh + Matrix.of fun _ k => b k

/-- Spec-side next cell state (Section 4.2, steps 2-4): sigmoid — as the
logistic function — on the first two blocks, tanh on the fourth, and
`c_next = f ⊙ c_prev + i ⊙ g`. -/
def specNextC {N D H : ℕ} (x : Matrix (Fin N) (Fin D) ℝ)
    (prev_h prev_c : Matrix (Fin N) (Fin H) ℝ)
    (Wx : Matrix (Fin D) (Fin (4*H)) ℝ) (Wh : Matrix (Fin H) (Fin (4*H)) ℝ)
    (b : Vec (4*H)) : Matrix (Fin N) (Fin H) ℝ :=
  Matrix.of fun n j =>
    logistic (specActivation x prev_h Wx Wh b n (blk H 1 j)) * prev_c n j
      + logistic (specActivation x prev_h Wx Wh b n (blk H 0 j))
        * Real.tanh (specActivation x prev_h Wx Wh b n (blk H 3 j))

/-- Spec-side next hidden state (Section 4.2, step 5):
`h_next = o ⊙ tanh(c_next)` with `o` the logistic of the third block. -/
def specNextH {N D H : ℕ} (x : Matrix (Fin N) (Fin D) ℝ)
    (prev_h prev_c : Matrix (Fin N) (Fin H) ℝ)
    (Wx : Matrix (Fin D) (Fin (4*H)) ℝ) (Wh : Matrix (Fin H) (Fin (4*H)) ℝ)
    (b : Vec (4*H)) : Matrix (Fin N) (Fin H) ℝ :=
  Matrix.of fun n j =>
    logistic (specActivation x prev_h Wx Wh b n (blk H 2 j))
      * Real.tanh (specNextC x prev_h prev_c Wx Wh b n j)

theorem specActivation_eq_lstmActivation {N D H : ℕ} (x : Mat N D)
    (prev_h : Mat N H) (Wx : Mat D (4*H)) (Wh : Mat H (4*H)) (b : Vec (4*H))
    (n : Fin N) (k : Fin (4*H)) :
    specActivation (Matrix.of x) (Matrix.of prev_h) (Matrix.of Wx)
        (Matrix.of Wh) b n k = lstmActivation x prev_h Wx Wh b n k := by
  simp [specActivation, lstmActivation, Matrix.add_apply, Matrix.mul_apply,
    Matrix.of_apply]

/-- C2: for agreeing shapes, `lstm_step_forward` computes the activation
`x·Wx + h_prev·Wh + b` (bias broadcast across the batch), splits it into
four H-wide blocks, applies the sigmoid to the first three and tanh to the
fourth, and returns `c_next = f ⊙ c_prev + i ⊙ g` and
`h_next = o ⊙ tanh(c_next)`. -/
theorem lstm_step_forward_matches_spec {N D H : ℕ} (x : Mat N D)
    (prev_h prev_c : Mat N H) (Wx : Mat D (4*H)) (Wh : Mat H (4*H))
    (b : Vec (4*H)) :
    (∀ n k, (lstm_step_forward x prev_h prev_c Wx Wh b).2.2.activation n k
        = specActivation (Matrix.of x) (Matrix.of prev_h) (Matrix.of Wx)
            (Matrix.of Wh) b n k)
    ∧ (∀ n j, (lstm_step_forward x prev_h prev_c Wx Wh b).2.1 n j
        = specNextC (Matrix.of x) (Matrix.of prev_h) (Matrix.of prev_c)
            (Matrix.of Wx) (Matrix.of Wh) b n j)
    ∧ (∀ n j, (lstm_step_forward x prev_h prev_c Wx Wh b).1 n j
        = specNextH (Matrix.of x) (Matrix.of prev_h) (Matrix.of prev_c)
            (Matrix.of Wx) (Matrix.of Wh) b n j) := by
  refine ⟨?_, ?_, ?_⟩
  · intro n k
    rw [specActivation_eq_lstmActivation]
    rfl
  · intro n j
    show lstmNextC (lstmActivation x prev_h Wx Wh b) prev_c n j = _
    simp only [lstmNextC, gateF, gateI, gateG, specNextC, Matrix.of_apply,
      sigmoid_eq_logistic, specActivation_eq_lstmActivation]
  · intro n j
    show lstmNextH (lstmActivation x prev_h Wx Wh b) prev_c n j = _
    simp only [lstmNextH, lstmNextC, gateF, gateI, gateG, gateO, specNextH,
      specNextC, Matrix.of_apply, sigmoid_eq_logistic,
      specActivation_eq_lstmActivation]

/-- C3: the stable sigmoid equals the logistic function `1/(1+e^-x)`
everywhere; on non-negative inputs it evaluates `1/(1+e^-x)` directly, on
negative inputs it evaluates `e^x/(1+e^x)`, and on both branches the
argument handed to the exponential is never positive. -/
theorem sigmoid_stable_spec (x : ℝ) :
    sigmoid x = 1 / (1 + Real.exp (-x))
    ∧ sigmoid x = (if 0 ≤ x then 1 / (1 + Real.exp (-x))
        else Real.exp x / (1 + Real.exp x))
    ∧ sigmoidExpArg x ≤ 0 := by
  refine ⟨sigmoid_eq_logistic x, ?_, ?_⟩
  · by_cases hx : 0 ≤ x
    · rw [if_pos hx]
      exact sigmoid_eq_logistic x
    · rw [if_neg hx]
      simp [sigmoid, sigmoidExpArg, hx]
  · unfold sigmoidExpArg
    by_cases hx : 0 ≤ x
    · rw [if_pos hx]; linarith
    · rw [if_neg hx]; linarith [lt_of_not_le hx]

/-- C5: `lstm_forward` fixes the initial cell state to the zero matrix —
the caller never supplies a `c0`, changing `h0` does not alter it — and
the pass coincides with the chain of cell steps started explicitly from
`c0 = 0`. -/
theorem lstm_forward_zero_init_cell {N T D H : ℕ}
    (x : Fin N → Fin T → Fin D → ℝ) (h0 h0' : Mat N H) (Wx : Mat D (4*H))
    (Wh : Mat H (4*H)) (b : Vec (4*H)) :
    ((lstmStates x h0 Wx Wh b 0).2 = fun _ _ => 0)
    ∧ (lstmStates x h0 Wx Wh b 0).2 = (lstmStates x h0' Wx Wh b 0).2
    ∧ (∀ n t j, (lstm_forward x h0 Wx Wh b).1 n t j
        = (lstm_forwardFromC0 x h0 (fun _ _ => 0) Wx Wh b).1 n t j)
    ∧ (∀ t, (lstm_forward x h0 Wx Wh b).2 t
        = (lstm_forwardFromC0 x h0 (fun _ _ => 0) Wx Wh b).2 t) := by
  have key : ∀ k, lstmStates x h0 Wx Wh b k
      = lstmStatesFromC0 x h0 (fun _ _ => 0) Wx Wh b k := by
    intro k
    induction k with
    | zero => rfl
    | succ k ih => simp only [lstmStates, lstmStatesFromC0, ih]
  refine ⟨rfl, rfl, ?_, ?_⟩
  · intro n t j
    show (lstmStepAt x h0 Wx Wh b t).1 n j = _
    unfold lstmStepAt lstm_forwardFromC0
    rw [key]
  · intro t
    show (lstmStepAt x h0 Wx Wh b t).2.2 = _
    unfold lstmStepAt lstm_forwardFromC0
    rw [key]

theorem lstmStates_succ_fin {N T D H : ℕ} (x : Fin N → Fin T → Fin D → ℝ)
    (h0 : Mat N H) (Wx : Mat D (4*H)) (Wh : Mat H (4*H)) (b : Vec (4*H))
    (t : Fin T) :
    lstmStates x h0 Wx Wh b (t.val + 1)
      = ((lstmStepAt x h0 Wx Wh b t).1, (lstmStepAt x h0 Wx Wh b t).2.1) := by
  have ht := t.isLt
  simp only [lstmStates, dif_pos ht]
  rfl

/-- C6: `lstm_forward` iterates timesteps in increasing order threading
`(h, c)` through the cell step; its returned `h` has the hidden state of
step `t` at slice `t` (the initial `h0` is not a row of the output), its
returned caches are exactly the `T` per-step caches, and the recurrence
starts at `(h0, 0)`. -/
theorem lstm_forward_output_rows {N T D H : ℕ}
    (x : Fin N → Fin T → Fin D → ℝ) (h0 : Mat N H) (Wx : Mat D (4*H))
    (Wh : Mat H (4*H)) (b : Vec (4*H)) :
    (∀ (t : Fin T) (n : Fin N) (j : Fin H),
        (lstm_forward x h0 Wx Wh b).1 n t j = (lstmStepAt x h0 Wx Wh b t).1 n j)
    ∧ (∀ t : Fin T,
        (lstm_forward x h0 Wx Wh b).2 t = (lstmStepAt x h0 Wx Wh b t).2.2)
    ∧ lstmStates x h0 Wx Wh b 0 = (h0, fun _ _ => 0)
    ∧ (∀ t : Fin T, lstmStates x h0 Wx Wh b (t.val + 1)
        = ((lstmStepAt x h0 Wx Wh b t).1, (lstmStepAt x h0 Wx Wh b t).2.1))
    ∧ (∀ t : Fin T, lstmStepAt x h0 Wx Wh b t
        = lstm_step_forward (fun n d => x n t d)
            (lstmStates x h0 Wx Wh b t.val).1
            (lstmStates x h0 Wx Wh b t.val).2 Wx Wh b) :=
  ⟨fun _ _ _ => rfl, fun _ => rfl, rfl,
    lstmStates_succ_fin x h0 Wx Wh b, fun _ => rfl⟩

/-- C8: the forward split reads the input gate from columns `[0, H)`, the
forget gate from `[H, 2H)`, the output gate from `[2H, 3H)` and the block
input from `[3H, 4H)`, and the backward pass writes each gate's
pre-activation gradient into exactly the same block positions. -/
theorem gate_block_layout {N D H : ℕ} (x : Mat N D) (prev_h prev_c : Mat N H)
    (Wx : Mat D (4*H)) (Wh : Mat H (4*H)) (b : Vec (4*H))
    (dnext_h dnext_c : Mat N H) (cache : LSTMCache N D H) :
    (∀ n j, (lstm_step_forward x prev_h prev_c Wx Wh b).2.2.input n j
        = sigmoid ((lstm_step_forward x prev_h prev_c Wx Wh b).2.2.activation
            n (blk H 0 j)))
    ∧ (∀ n j, (lstm_step_forward x prev_h prev_c Wx Wh b).2.2.forget n j
        = sigmoid ((lstm_step_forward x prev_h prev_c Wx Wh b).2.2.activation
            n (blk H 1 j)))
    ∧ (∀ n j, (lstm_step_forward x prev_h prev_c Wx Wh b).2.2.output n j
        = sigmoid ((lstm_step_forward x prev_h prev_c Wx Wh b).2.2.activation
            n (blk H 2 j)))
    ∧ (∀ n j, (lstm_step_forward x prev_h prev_c Wx Wh b).2.2.block_input n j
        = Real.tanh ((lstm_step_forward x prev_h prev_c Wx Wh b).2.2.activation
            n (blk H 3 j)))
    ∧ (∀ n j, lstmDActivation dnext_h dnext_c cache n (blk H 0 j)
        = lstmDCT dnext_h dnext_c cache n j * cache.block_input n j
          * cache.input n j * (1 - cache.input n j))
    ∧ (∀ n j, lstmDActivation dnext_h dnext_c cache n (blk H 1 j)
        = lstmDCT dnext_h dnext_c cache n j * cache.prev_c n j
          * cache.forget n j * (1 - cache.forget n j))
    ∧ (∀ n j, lstmDActivation dnext_h dnext_c cache n (blk H 2 j)
        = dnext_h n j * Real.tanh (cache.next_c n j)
          * cache.output n j * (1 - cache.output n j))
    ∧ (∀ n j, lstmDActivation dnext_h dnext_c cache n (blk H 3 j)
        = lstmDCT dnext_h dnext_c cache n j * cache.input n j
          * (1 - cache.block_input n j ^ 2)) :=
  ⟨fun _ _ => rfl, fun _ _ => rfl, fun _ _ => rfl, fun _ _ => rfl,
    lstmDActivation_blk0 dnext_h dnext_c cache,
    lstmDActivation_blk1 dnext_h dnext_c cache,
    lstmDActivation_blk2 dnext_h dnext_c cache,
    lstmDActivation_blk3 dnext_h dnext_c cache⟩

/-- C9: `lstm_backward` reads the input dimension from the first step's
cache, so it fails exactly when the cache collection is empty (`T = 0`)
and succeeds whenever `T ≥ 1`. -/
theorem lstm_backward_needs_nonempty_cache {N T D H : ℕ}
    (dh : Fin N → Fin T → Fin H → ℝ) (caches : Fin T → LSTMCache N D H) :
    ((lstm_backward dh caches).isSome ↔ 0 < T)
    ∧ (lstm_backward dh caches = none ↔ T = 0) := by
  unfold lstm_backward
  by_cases hT : 0 < T
  · simp only [if_pos hT]
    constructor
    · simp [Option.isSome]
      exact hT
    · constructor
      · intro h
        exact absurd h (by simp)
      · intro h
        omega
  · simp only [if_neg hT]
    constructor
    · simp [Option.isSome]
      omega
    · simp
      omega

/-- C4 counterexample: at a concrete input the `dnext_c` buffer does not
survive the call unchanged — `lstm_step_backward` adds
`dnext_h ⊙ o ⊙ (1 - tanh²(next_c))` to it in place. -/
theorem lstm_step_backward_mutation_cex :
    ¬ ((@lstm_step_backward 1 1 1 (fun _ _ => 1) (fun _ _ => 0)
        ⟨fun _ _ => 0, fun _ _ => 0, fun _ _ => 0, fun _ _ => 0, fun _ _ => 0,
          fun _ _ => 0, fun _ _ => 0, fun _ => 0, fun _ _ => 0, fun _ _ => 0,
          fun _ _ => 0, fun _ _ => 1, fun _ _ => 0⟩).dnext_c_after
      = fun _ _ => 0) := by
  intro h
  have h2 := congrFun (congrFun h 0) 0
  simp [lstm_step_backward, lstmDCT, Real.tanh_zero] at h2

/-- C4 (amended): `lstm_step_backward` leaves the cache and `dnext_h`
unchanged and returns its gradients as fresh values, but it updates the
caller's `dnext_c` buffer in place, adding
`dnext_h ⊙ o ⊙ (1 - tanh²(next_c))`; the buffer survives unchanged exactly
when that increment vanishes everywhere. -/
theorem lstm_step_backward_frame {N D H : ℕ} (dnext_h dnext_c : Mat N H)
    (cache : LSTMCache N D H) :
    (lstm_step_backward dnext_h dnext_c cache).cache_after = cache
    ∧ (lstm_step_backward dnext_h dnext_c cache).dnext_h_after = dnext_h
    ∧ (∀ n j, (lstm_step_backward dnext_h dnext_c cache).dnext_c_after n j
        = dnext_c n j + dnext_h n j * cache.output n j
          * (1 - Real.tanh (cache.next_c n j) ^ 2))
    ∧ ((lstm_step_backward dnext_h dnext_c cache).dnext_c_after = dnext_c
        ↔ ∀ n j, dnext_h n j * cache.output n j
            * (1 - Real.tanh (cache.next_c n j) ^ 2) = 0) := by
  refine ⟨rfl, rfl, fun n j => rfl, ?_, ?_⟩
  · intro h n j
    have h2 := congrFun (congrFun h n) j
    have h3 : dnext_c n j + dnext_h n j * cache.output n j
        * (1 - Real.tanh (cache.next_c n j) ^ 2) = dnext_c n j := h2
    linarith
  · intro h
    funext n j
    show dnext_c n j + dnext_h n j * cache.output n j
        * (1 - Real.tanh (cache.next_c n j) ^ 2) = dnext_c n j
    rw [h n j]
    ring

theorem lstmBwdLoop_succ_ge {N T D H : ℕ} (dh : Fin N → Fin T → Fin H → ℝ)
    (caches : Fin T → LSTMCache N D H) (k : ℕ) (hk : ¬ k < T) :
    lstmBwdLoop dh caches (k+1) = lstmBwdLoop dh caches k := by
  simp only [lstmBwdLoop, dif_neg hk]

theorem lstmBwdLoop_dhBuf {N T D H : ℕ} (dh : Fin N → Fin T → Fin H → ℝ)
    (caches : Fin T → LSTMCache N D H) (k : ℕ) :
    (lstmBwdLoop dh caches k).dhBuf = dh := by
  induction k with
  | zero => rfl
  | succ k ih =>
    by_cases hk : k < T
    · simp only [lstmBwdLoop, dif_pos hk]
      exact ih
    · rw [lstmBwdLoop_succ_ge dh caches k hk]
      exact ih

theorem lstmBwdLoop_succ_lt {N T D H : ℕ} (dh : Fin N → Fin T → Fin H → ℝ)
    (caches : Fin T → LSTMCache N D H) (t0 : Fin T) (k : ℕ)
    (hk : k = T - 1 - t0.val) :
    lstmBwdLoop dh caches (k+1)
      = ⟨(bwdStepAt dh caches t0).dprev_h,
         (bwdStepAt dh caches t0).dprev_c,
         fun n t' d => if t' = t0
           then (lstmBwdLoop dh caches k).dx n t' d
             + (bwdStepAt dh caches t0).dx n d
           else (lstmBwdLoop dh caches k).dx n t' d,
         fun d c => (lstmBwdLoop dh caches k).dWx d c
           + (bwdStepAt dh caches t0).dWx d c,
         fun m c => (lstmBwdLoop dh caches k).dWh m c
           + (bwdStepAt dh caches t0).dWh m c,
         fun c => (lstmBwdLoop dh caches k).db c
           + (bwdStepAt dh caches t0).db c,
         (lstmBwdLoop dh caches k).dhBuf⟩ := by
  have ht0 := t0.isLt
  have hkT : k < T := by omega
  have hmk : (⟨T - 1 - k, by omega⟩ : Fin T) = t0 := Fin.ext (by
    show T - 1 - k = t0.val
    omega)
  simp only [lstmBwdLoop, dif_pos hkT, hmk]
  unfold bwdStepAt
  have hidx : T - 1 - t0.val = k := by omega
  rw [hidx]

/-- After `T - t` iterations the reversed loop has just processed timestep
`t`; the carried state gradients are the `dprev_h`, `dprev_c` outputs of
that step's `lstm_step_backward` call. -/
theorem lstmBwdLoop_carry {N T D H : ℕ} (dh : Fin N → Fin T → Fin H → ℝ)
    (caches : Fin T → LSTMCache N D H) (t : Fin T) :
    (lstmBwdLoop dh caches (T - t.val)).dprev = (bwdStepAt dh caches t).dprev_h
    ∧ (lstmBwdLoop dh caches (T - t.val)).dprev_c
        = (bwdStepAt dh caches t).dprev_c := by
  have ht := t.isLt
  have hsplit : T - t.val = (T - 1 - t.val) + 1 := by omega
  rw [hsplit, lstmBwdLoop_succ_lt dh caches t (T - 1 - t.val) rfl]
  exact ⟨rfl, rfl⟩

theorem lstmBwdLoop_dx_final {N T D H : ℕ} (dh : Fin N → Fin T → Fin H → ℝ)
    (caches : Fin T → LSTMCache N D H) (k : ℕ) (n : Fin N) (t : Fin T)
    (d : Fin D) :
    (lstmBwdLoop dh caches k).dx n t d
      = if T - k ≤ t.val then (bwdStepAt dh caches t).dx n d else 0 := by
  have htT := t.isLt
  induction k with
  | zero =>
    rw [if_neg (by omega)]
    rfl
  | succ k ih =>
    by_cases hk : k < T
    · rw [lstmBwdLoop_succ_lt dh caches ⟨T - 1 - k, by omega⟩ k
        (by show k = T - 1 - (T - 1 - k); omega)]
      by_cases ht : t = (⟨T - 1 - k, by omega⟩ : Fin T)
      · have htv : t.val = T - 1 - k := by rw [ht]
        show (if t = (⟨T - 1 - k, by omega⟩ : Fin T) then _ else _) = _
        rw [if_pos ht, ih]
        have hc1 : ¬ (T - k ≤ t.val) := by omega
        have hc2 : T - (k+1) ≤ t.val := by omega
        rw [if_neg hc1, if_pos hc2, ← ht]
        exact zero_add _
      · have htv : t.val ≠ T - 1 - k := fun hcontra => ht (Fin.ext hcontra)
        show (if t = (⟨T - 1 - k, by omega⟩ : Fin T) then _ else _) = _
        rw [if_neg ht, ih]
        by_cases hc : T - k ≤ t.val
        · rw [if_pos hc, if_pos (by omega)]
        · rw [if_neg hc, if_neg (by omega)]
    · rw [lstmBwdLoop_succ_ge dh caches k hk, ih]
      by_cases hc : T - k ≤ t.val
      · rw [if_pos hc, if_pos (by omega)]
      · rw [if_neg hc, if_neg (by omega)]

/-- Generic accumulator invariant of the reversed loop: any component that
starts at zero and is increased by the step value of the timestep processed
at each iteration ends up as the sum over the processed timesteps. -/
theorem lstmBwdLoop_acc {N T D H : ℕ} (dh : Fin N → Fin T → Fin H → ℝ)
    (caches : Fin T → LSTMCache N D H) (F : LSTMBwdState N T D H → ℝ)
    (G : LSTMStepGrads N D H → ℝ)
    (hzero : F (lstmBwdLoop dh caches 0) = 0)
    (hstep : ∀ (k : ℕ) (hk : k < T),
      F (lstmBwdLoop dh caches (k + 1))
        = F (lstmBwdLoop dh caches k)
          + G (bwdStepAt dh caches ⟨T - 1 - k, by omega⟩))
    (k : ℕ) :
    F (lstmBwdLoop dh caches k)
      = ∑ t ∈ Finset.univ.filter (fun t : Fin T => T - k ≤ t.val),
          G (bwdStepAt dh caches t) := by
  induction k with
  | zero =>
    rw [hzero]
    have hempty : Finset.univ.filter (fun t : Fin T => T - 0 ≤ t.val) = ∅ :=
      Finset.filter_false_of_mem (fun t _ => by have := t.isLt; omega)
    rw [hempty, Finset.sum_empty]
  | succ k ih =>
    by_cases hk : k < T
    · rw [hstep k hk, ih]
      have hnot : (⟨T - 1 - k, by omega⟩ : Fin T)
          ∉ Finset.univ.filter (fun t : Fin T => T - k ≤ t.val) := by
        simp only [Finset.mem_filter, Finset.mem_univ, true_and]
        show ¬ (T - k ≤ T - 1 - k)
        omega
      have hset : Finset.univ.filter (fun t : Fin T => T - (k+1) ≤ t.val)
          = insert (⟨T - 1 - k, by omega⟩ : Fin T)
              (Finset.univ.filter (fun t : Fin T => T - k ≤ t.val)) := by
        ext t
        have := t.isLt
        simp only [Finset.mem_filter, Finset.mem_univ, true_and,
          Finset.mem_insert, Fin.ext_iff]
        constructor
        · intro hmem
          omega
        · intro hmem
          rcases hmem with hL | hR
          · omega
          · omega
      rw [hset, Finset.sum_insert hnot]
      exact add_comm _ _
    · rw [lstmBwdLoop_succ_ge dh caches k hk, ih]
      apply Finset.sum_congr
      · apply Finset.filter_congr
        intro t _
        have := t.isLt
        constructor
        · intro hmem; omega
        · intro hmem; omega
      · intro t _
        rfl

theorem lstmBwdLoop_filter_univ {T : ℕ} (G : Fin T → ℝ) :
    ∑ t ∈ Finset.univ.filter (fun t : Fin T => T - T ≤ t.val), G t
      = ∑ t, G t := by
  apply Finset.sum_congr
  · apply Finset.filter_true_of_mem
    intro t _
    omega
  · intro t _
    rfl

/-- C7: `lstm_backward` walks `t = T-1 … 0`, at each step handing
`dh[:,t,:] + dh_carry` and the carried cell gradient to
`lstm_step_backward`; it writes each step's `dx_t` into slice `t` of `dx`,
accumulates `dWx`, `dWh`, `db` by summation over all `T` steps, and its
`dh0` is the hidden carry left over after timestep 0. -/
theorem lstm_backward_accumulation {N T D H : ℕ}
    (dh : Fin N → Fin T → Fin H → ℝ) (caches : Fin T → LSTMCache N D H) :
    (∀ t : Fin T,
        (lstmBwdLoop dh caches (T - t.val)).dprev
            = (bwdStepAt dh caches t).dprev_h
        ∧ (lstmBwdLoop dh caches (T - t.val)).dprev_c
            = (bwdStepAt dh caches t).dprev_c)
    ∧ (∀ (t : Fin T) (n : Fin N) (d : Fin D),
        (lstmBwdLoop dh caches T).dx n t d = (bwdStepAt dh caches t).dx n d)
    ∧ (∀ (d : Fin D) (c : Fin (4*H)),
        (lstmBwdLoop dh caches T).dWx d c
          = ∑ t, (bwdStepAt dh caches t).dWx d c)
    ∧ (∀ (m : Fin H) (c : Fin (4*H)),
        (lstmBwdLoop dh caches T).dWh m c
          = ∑ t, (bwdStepAt dh caches t).dWh m c)
    ∧ (∀ c : Fin (4*H),
        (lstmBwdLoop dh caches T).db c = ∑ t, (bwdStepAt dh caches t).db c)
    ∧ lstm_backward dh caches
        = (if 0 < T then
            some ⟨(lstmBwdLoop dh caches T).dx,
              fun n j => 0 + (lstmBwdLoop dh caches T).dprev n j,
              (lstmBwdLoop dh caches T).dWx, (lstmBwdLoop dh caches T).dWh,
              (lstmBwdLoop dh caches T).db, (lstmBwdLoop dh caches T).dhBuf⟩
          else none) := by
  refine ⟨lstmBwdLoop_carry dh caches, ?_, ?_, ?_, ?_, rfl⟩
  · intro t n d
    rw [lstmBwdLoop_dx_final dh caches T n t d,
      if_pos (by have := t.isLt; omega)]
  · intro d c
    rw [lstmBwdLoop_acc dh caches (fun s => s.dWx d c) (fun g => g.dWx d c)
      rfl (fun k hk => by
        rw [lstmBwdLoop_succ_lt dh caches ⟨T - 1 - k, by omega⟩ k
          (by show k = T - 1 - (T - 1 - k); omega)]) T]
    exact lstmBwdLoop_filter_univ (fun t => (bwdStepAt dh caches t).dWx d c)
  · intro m c
    rw [lstmBwdLoop_acc dh caches (fun s => s.dWh m c) (fun g => g.dWh m c)
      rfl (fun k hk => by
        rw [lstmBwdLoop_succ_lt dh caches ⟨T - 1 - k, by omega⟩ k
          (by show k = T - 1 - (T - 1 - k); omega)]) T]
    exact lstmBwdLoop_filter_univ (fun t => (bwdStepAt dh caches t).dWh m c)
  · intro c
    rw [lstmBwdLoop_acc dh caches (fun s => s.db c) (fun g => g.db c)
      rfl (fun k hk => by
        rw [lstmBwdLoop_succ_lt dh caches ⟨T - 1 - k, by omega⟩ k
          (by show k = T - 1 - (T - 1 - k); omega)]) T]
    exact lstmBwdLoop_filter_univ (fun t => (bwdStepAt dh caches t).db c)

/-- C10: `lstm_backward` never mutates its caller's upstream gradient
`dh`: the in-place update inside `lstm_step_backward` only ever lands on
the loop's own freshly produced `dprev_c` values, so the `dh` buffer is
unchanged through every iteration and after the whole call. -/
theorem lstm_backward_preserves_dh {N T D H : ℕ}
    (dh : Fin N → Fin T → Fin H → ℝ) (caches : Fin T → LSTMCache N D H) :
    (∀ k : ℕ, (lstmBwdLoop dh caches k).dhBuf = dh)
    ∧ (lstm_backward dh caches).map (fun g => g.dh_after)
        = (lstm_backward dh caches).map (fun _ => dh) := by
  refine ⟨lstmBwdLoop_dhBuf dh caches, ?_⟩
  unfold lstm_backward
  by_cases hT : 0 < T
  · rw [if_pos hT]
    show some _ = some _
    rw [lstmBwdLoop_dhBuf dh caches T]
  · rw [if_neg hT]
    rfl

/-- Linear perturbation of a matrix along a direction, used to state the
directional-derivative form of reverse-mode gradient correctness. -/
def pert {n m : ℕ} (A V : Mat n m) (e : ℝ) : Mat n m :=
  fun i j => A i j + e * V i j

/-- Linear perturbation of a vector along a direction. -/
def pertV {n : ℕ} (A V : Vec n) (e : ℝ) : Vec n :=
  fun k => A k + e * V k

theorem pert_zero {n m : ℕ} (A V : Mat n m) : pert A V 0 = A := by
  funext i j
  simp [pert]

theorem pertV_zero {n : ℕ} (A V : Vec n) : pertV A V 0 = A := by
  funext k
  simp [pertV]

theorem hasDerivAt_affine (p u : ℝ) :
    HasDerivAt (fun e : ℝ => p + e * u) u 0 := by
  simpa using ((hasDerivAt_id (0:ℝ)).mul_const u).const_add p

theorem hasDerivAt_affine_mul (p u q w : ℝ) :
    HasDerivAt (fun e : ℝ => (p + e * u) * (q + e * w)) (u * q + p * w) 0 := by
  simpa using (hasDerivAt_affine p u).mul (hasDerivAt_affine q w)

theorem hasDerivAt_activation_pert {N D H : ℕ} (x vx : Mat N D)
    (prev_h vh : Mat N H) (Wx vWx : Mat D (4*H)) (Wh vWh : Mat H (4*H))
    (b vb : Vec (4*H)) (n : Fin N) (k : Fin (4*H)) :
    HasDerivAt
      (fun e => lstmActivation (pert x vx e) (pert prev_h vh e)
        (pert Wx vWx e) (pert Wh vWh e) (pertV b vb e) n k)
      ((∑ d, (vx n d * Wx d k + x n d * vWx d k))
        + (∑ m, (vh n m * Wh m k + prev_h n m * vWh m k)) + vb k) 0 := by
  have h1 : HasDerivAt (fun e => ∑ d, pert x vx e n d * pert Wx vWx e d k)
      (∑ d, (vx n d * Wx d k + x n d * vWx d k)) 0 :=
    HasDerivAt.sum (fun d _ => hasDerivAt_affine_mul (x n d) (vx n d)
      (Wx d k) (vWx d k))
  have h2 : HasDerivAt
      (fun e => ∑ m, pert prev_h vh e n m * pert Wh vWh e m k)
      (∑ m, (vh n m * Wh m k + prev_h n m * vWh m k)) 0 :=
    HasDerivAt.sum (fun m _ => hasDerivAt_affine_mul (prev_h n m) (vh n m)
      (Wh m k) (vWh m k))
  have h3 : HasDerivAt (fun e => pertV b vb e k) (vb k) 0 :=
    hasDerivAt_affine (b k) (vb k)
  exact (h1.add h2).add h3

/-- Exact derivative at 0 of the weighted one-entry LSTM step output
`dh * (o ⊙ tanh(f ⊙ c_prev + i ⊙ g)) + dc * (f ⊙ c_prev + i ⊙ g)`,
with the four pre-activations and the previous cell entry moving along
differentiable paths.  The derivative is exactly the per-gate chain of
`lstm_step_backward`: each sigmoid gate contributes
`gate * (1 - gate)` times its pre-activation velocity, the block input
contributes `1 - g²`, the previous cell contributes `dct * f`. -/
theorem hasDerivAt_lstm_entry
    (ai af ao ag pc : ℝ → ℝ) (Ai Af Ao Ag Pc : ℝ)
    (dh dc i0 f0 o0 g0 pc0 c0 dct : ℝ)
    (hai : HasDerivAt ai Ai 0) (haf : HasDerivAt af Af 0)
    (hao : HasDerivAt ao Ao 0) (hag : HasDerivAt ag Ag 0)
    (hpc : HasDerivAt pc Pc 0)
    (hi0 : i0 = sigmoid (ai 0)) (hf0 : f0 = sigmoid (af 0))
    (ho0 : o0 = sigmoid (ao 0)) (hg0 : g0 = Real.tanh (ag 0))
    (hpc0 : pc0 = pc 0) (hc0 : c0 = f0 * pc0 + i0 * g0)
    (hdct : dct = dc + dh * o0 * (1 - Real.tanh c0 ^ 2)) :
    HasDerivAt
      (fun e => dh * (sigmoid (ao e)
          * Real.tanh (sigmoid (af e) * pc e
            + sigmoid (ai e) * Real.tanh (ag e)))
        + dc * (sigmoid (af e) * pc e + sigmoid (ai e) * Real.tanh (ag e)))
      (dct * g0 * i0 * (1 - i0) * Ai
        + dct * pc0 * f0 * (1 - f0) * Af
        + dh * Real.tanh c0 * o0 * (1 - o0) * Ao
        + dct * i0 * (1 - g0 ^ 2) * Ag
        + dct * f0 * Pc) 0 := by
  subst hdct
  subst hc0
  subst hpc0
  subst hi0
  subst hf0
  subst ho0
  subst hg0
  have hi : HasDerivAt (fun e => sigmoid (ai e))
      (sigmoid (ai 0) * (1 - sigmoid (ai 0)) * Ai) 0 := by
    simpa [Function.comp] using (hasDerivAt_sigmoid (ai 0)).comp 0 hai
  have hf : HasDerivAt (fun e => sigmoid (af e))
      (sigmoid (af 0) * (1 - sigmoid (af 0)) * Af) 0 := by
    simpa [Function.comp] using (hasDerivAt_sigmoid (af 0)).comp 0 haf
  have ho : HasDerivAt (fun e => sigmoid (ao e))
      (sigmoid (ao 0) * (1 - sigmoid (ao 0)) * Ao) 0 := by
    simpa [Function.comp] using (hasDerivAt_sigmoid (ao 0)).comp 0 hao
  have hg : HasDerivAt (fun e => Real.tanh (ag e))
      ((1 - Real.tanh (ag 0) ^ 2) * Ag) 0 := by
    simpa [Function.comp] using (hasDerivAt_tanh (ag 0)).comp 0 hag
  have hcf : HasDerivAt
      (fun e => sigmoid (af e) * pc e + sigmoid (ai e) * Real.tanh (ag e))
      (sigmoid (af 0) * (1 - sigmoid (af 0)) * Af * pc 0
          + sigmoid (af 0) * Pc
        + (sigmoid (ai 0) * (1 - sigmoid (ai 0)) * Ai * Real.tanh (ag 0)
          + sigmoid (ai 0) * ((1 - Real.tanh (ag 0) ^ 2) * Ag))) 0 :=
    (hf.mul hpc).add (hi.mul hg)
  have htc : HasDerivAt
      (fun e => Real.tanh (sigmoid (af e) * pc e
        + sigmoid (ai e) * Real.tanh (ag e)))
      ((1 - Real.tanh (sigmoid (af 0) * pc 0
          + sigmoid (ai 0) * Real.tanh (ag 0)) ^ 2)
        * (sigmoid (af 0) * (1 - sigmoid (af 0)) * Af * pc 0
            + sigmoid (af 0) * Pc
          + (sigmoid (ai 0) * (1 - sigmoid (ai 0)) * Ai * Real.tanh (ag 0)
            + sigmoid (ai 0) * ((1 - Real.tanh (ag 0) ^ 2) * Ag)))) 0 := by
    simpa [Function.comp] using
      (hasDerivAt_tanh (sigmoid (af 0) * pc 0
        + sigmoid (ai 0) * Real.tanh (ag 0))).comp 0 hcf
  have hh : HasDerivAt
      (fun e => sigmoid (ao e) * Real.tanh (sigmoid (af e) * pc e
        + sigmoid (ai e) * Real.tanh (ag e)))
      (sigmoid (ao 0) * (1 - sigmoid (ao 0)) * Ao
          * Real.tanh (sigmoid (af 0) * pc 0
            + sigmoid (ai 0) * Real.tanh (ag 0))
        + sigmoid (ao 0)
          * ((1 - Real.tanh (sigmoid (af 0) * pc 0
              + sigmoid (ai 0) * Real.tanh (ag 0)) ^ 2)
            * (sigmoid (af 0) * (1 - sigmoid (af 0)) * Af * pc 0
                + sigmoid (af 0) * Pc
              + (sigmoid (ai 0) * (1 - sigmoid (ai 0)) * Ai * Real.tanh (ag 0)
                + sigmoid (ai 0) * ((1 - Real.tanh (ag 0) ^ 2) * Ag))))) 0 :=
    ho.mul htc
  have htot := (hh.const_mul dh).add (hcf.const_mul dc)
  convert htot using 1
  ring

/-- The four H-wide gate blocks tile the `4*H` columns exactly. -/
def blkEquiv (H : ℕ) : Fin 4 × Fin H ≃ Fin (4*H) where
  toFun := fun p => blk H p.1 p.2
  invFun := fun k =>
    (⟨k.val / H, by
        have hH : 0 < H := by have := k.isLt; omega
        exact (Nat.div_lt_iff_lt_mul hH).mpr k.isLt⟩, blkIdx k)
  left_inv := by
    intro p
    have hH : 0 < H := p.2.pos
    refine Prod.ext ?_ ?_
    · apply Fin.ext
      show (p.1.val * H + p.2.val) / H = p.1.val
      rw [Nat.mul_comm, Nat.mul_add_div hH, Nat.div_eq_of_lt p.2.isLt]
      omega
    · exact blkIdx_blk p.1 p.2
  right_inv := by
    intro k
    apply Fin.ext
    show (k.val / H) * H + k.val % H = k.val
    rw [Nat.mul_comm]
    exact Nat.div_add_mod k.val H

theorem sum_four_blocks {H : ℕ} (F : Fin (4*H) → ℝ) :
    ∑ k, F k
      = ∑ j : Fin H,
          (F (blk H 0 j) + F (blk H 1 j) + F (blk H 2 j) + F (blk H 3 j)) := by
  rw [← Equiv.sum_comp (blkEquiv H) F]
  rw [Fintype.sum_prod_type_right]
  apply Finset.sum_congr rfl
  intro j _
  rw [Fin.sum_univ_four]
  rfl

theorem triple_sum_rotate {A B C : Type} [Fintype A] [Fintype B] [Fintype C]
    (f : A → B → C → ℝ) :
    ∑ a, ∑ b, ∑ c, f a b c = ∑ c, ∑ b, ∑ a, f a b c :=
  calc ∑ a, ∑ b, ∑ c, f a b c
      = ∑ a, ∑ c, ∑ b, f a b c :=
        Finset.sum_congr rfl (fun _ _ => Finset.sum_comm)
    _ = ∑ c, ∑ a, ∑ b, f a b c := Finset.sum_comm
    _ = ∑ c, ∑ b, ∑ a, f a b c :=
        Finset.sum_congr rfl (fun _ _ => Finset.sum_comm)

theorem sum_rearrange {N D H : ℕ} (da : Mat N (4*H)) (Wx vWx : Mat D (4*H))
    (Wh vWh : Mat H (4*H)) (vb : Vec (4*H)) (x vx : Mat N D)
    (prev_h vh : Mat N H) :
    ∑ n, ∑ k, da n k * ((∑ d, (vx n d * Wx d k + x n d * vWx d k))
        + (∑ m, (vh n m * Wh m k + prev_h n m * vWh m k)) + vb k)
      = (∑ n, ∑ d, (∑ k, da n k * Wx d k) * vx n d)
        + (∑ n, ∑ j, (∑ k, da n k * Wh j k) * vh n j)
        + (∑ d, ∑ k, (∑ n, x n d * da n k) * vWx d k)
        + (∑ m, ∑ k, (∑ n, prev_h n m * da n k) * vWh m k)
        + (∑ k, (∑ n, da n k) * vb k) := by
  have hsplit : ∀ (n : Fin N) (k : Fin (4*H)),
      da n k * ((∑ d, (vx n d * Wx d k + x n d * vWx d k))
          + (∑ m, (vh n m * Wh m k + prev_h n m * vWh m k)) + vb k)
        = (∑ d, da n k * (vx n d * Wx d k))
          + (∑ d, da n k * (x n d * vWx d k))
          + (∑ m, da n k * (vh n m * Wh m k))
          + (∑ m, da n k * (prev_h n m * vWh m k))
          + da n k * vb k := by
    intro n k
    have hA : da n k * (∑ d, (vx n d * Wx d k + x n d * vWx d k))
        = (∑ d, da n k * (vx n d * Wx d k))
          + (∑ d, da n k * (x n d * vWx d k)) := by
      rw [Finset.mul_sum, ← Finset.sum_add_distrib]
      apply Finset.sum_congr rfl
      intro d _
      ring
    have hB : da n k * (∑ m, (vh n m * Wh m k + prev_h n m * vWh m k))
        = (∑ m, da n k * (vh n m * Wh m k))
          + (∑ m, da n k * (prev_h n m * vWh m k)) := by
      rw [Finset.mul_sum, ← Finset.sum_add_distrib]
      apply Finset.sum_congr rfl
      intro m _
      ring
    calc da n k * ((∑ d, (vx n d * Wx d k + x n d * vWx d k))
          + (∑ m, (vh n m * Wh m k + prev_h n m * vWh m k)) + vb k)
        = da n k * (∑ d, (vx n d * Wx d k + x n d * vWx d k))
          + da n k * (∑ m, (vh n m * Wh m k + prev_h n m * vWh m k))
          + da n k * vb k := by ring
      _ = _ := by rw [hA, hB]; ring
  have e1 : (∑ n, ∑ k, ∑ d, da n k * (vx n d * Wx d k))
      = ∑ n, ∑ d, (∑ k, da n k * Wx d k) * vx n d := by
    apply Finset.sum_congr rfl
    intro n _
    rw [Finset.sum_comm]
    apply Finset.sum_congr rfl
    intro d _
    rw [Finset.sum_mul]
    apply Finset.sum_congr rfl
    intro k _
    ring
  have e2 : (∑ n, ∑ k, ∑ d, da n k * (x n d * vWx d k))
      = ∑ d, ∑ k, (∑ n, x n d * da n k) * vWx d k := by
    rw [triple_sum_rotate (fun n k d => da n k * (x n d * vWx d k))]
    apply Finset.sum_congr rfl
    intro d _
    apply Finset.sum_congr rfl
    intro k _
    rw [Finset.sum_mul]
    apply Finset.sum_congr rfl
    intro n _
    ring
  have e3 : (∑ n, ∑ k, ∑ m, da n k * (vh n m * Wh m k))
      = ∑ n, ∑ j, (∑ k, da n k * Wh j k) * vh n j := by
    apply Finset.sum_congr rfl
    intro n _
    rw [Finset.sum_comm]
    apply Finset.sum_congr rfl
    intro j _
    rw [Finset.sum_mul]
    apply Finset.sum_congr rfl
    intro k _
    ring
  have e4 : (∑ n, ∑ k, ∑ m, da n k * (prev_h n m * vWh m k))
      = ∑ m, ∑ k, (∑ n, prev_h n m * da n k) * vWh m k := by
    rw [triple_sum_rotate (fun n k m => da n k * (prev_h n m * vWh m k))]
    apply Finset.sum_congr rfl
    intro m _
    apply Finset.sum_congr rfl
    intro k _
    rw [Finset.sum_mul]
    apply Finset.sum_congr rfl
    intro n _
    ring
  have e5 : (∑ n, ∑ k, da n k * vb k) = ∑ k, (∑ n, da n k) * vb k := by
    rw [Finset.sum_comm]
    apply Finset.sum_congr rfl
    intro k _
    rw [Finset.sum_mul]
  calc ∑ n, ∑ k, da n k * ((∑ d, (vx n d * Wx d k + x n d * vWx d k))
        + (∑ m, (vh n m * Wh m k + prev_h n m * vWh m k)) + vb k)
      = ∑ n, ∑ k, ((∑ d, da n k * (vx n d * Wx d k))
          + (∑ d, da n k * (x n d * vWx d k))
          + (∑ m, da n k * (vh n m * Wh m k))
          + (∑ m, da n k * (prev_h n m * vWh m k))
          + da n k * vb k) := by
        apply Finset.sum_congr rfl
        intro n _
        apply Finset.sum_congr rfl
        intro k _
        exact hsplit n k
    _ = (∑ n, ∑ k, ∑ d, da n k * (vx n d * Wx d k))
          + (∑ n, ∑ k, ∑ d, da n k * (x n d * vWx d k))
          + (∑ n, ∑ k, ∑ m, da n k * (vh n m * Wh m k))
          + (∑ n, ∑ k, ∑ m, da n k * (prev_h n m * vWh m k))
          + (∑ n, ∑ k, da n k * vb k) := by
        simp only [Finset.sum_add_distrib]
    _ = _ := by
        rw [e1, e2, e3, e4, e5]
        ring

/-- Directional derivative of the perturbed activation entries, packaged
as a matrix (used to relate the chain rule to the backward pass). -/
def aDir {N D H : ℕ} (x vx : Mat N D) (prev_h vh : Mat N H)
    (Wx vWx : Mat D (4*H)) (Wh vWh : Mat H (4*H)) (vb : Vec (4*H)) :
    Mat N (4*H) :=
  fun n k => (∑ d, (vx n d * Wx d k + x n d * vWx d k))
    + (∑ m, (vh n m * Wh m k + prev_h n m * vWh m k)) + vb k

/-- C1: applied to the cache produced by `lstm_step_forward`,
`lstm_step_backward dnext_h dnext_c cache` returns exactly the
reverse-mode gradients of the step outputs: for every simultaneous
perturbation direction of `(x, h_prev, c_prev, Wx, Wh, b)`, the derivative
at 0 of `⟨dnext_h, h_next⟩ + ⟨dnext_c, c_next⟩` along that direction equals
the inner product of the returned `(dx, dprev_h, dprev_c, dWx, dWh, db)`
with the direction. -/
theorem lstm_step_backward_is_gradient {N D H : ℕ} (x : Mat N D)
    (prev_h prev_c : Mat N H) (Wx : Mat D (4*H)) (Wh : Mat H (4*H))
    (b : Vec (4*H)) (dnext_h dnext_c : Mat N H) (vx : Mat N D)
    (vh vc : Mat N H) (vWx : Mat D (4*H)) (vWh : Mat H (4*H))
    (vb : Vec (4*H)) :
    HasDerivAt
      (fun e => ∑ n, ∑ j, (dnext_h n j * (lstm_step_forward (pert x vx e) (pert prev_h vh e) (pert prev_c vc e) (pert Wx vWx e) (pert Wh vWh e) (pertV b vb e)).1 n j + dnext_c n j * (lstm_step_forward (pert x vx e) (pert prev_h vh e) (pert prev_c vc e) (pert Wx vWx e) (pert Wh vWh e) (pertV b vb e)).2.1 n j))
      ((∑ n, ∑ d, (lstm_step_backward dnext_h dnext_c (lstm_step_forward x prev_h prev_c Wx Wh b).2.2).dx n d * vx n d) + (∑ n, ∑ j, (lstm_step_backward dnext_h dnext_c (lstm_step_forward x prev_h prev_c Wx Wh b).2.2).dprev_h n j * vh n j) + (∑ n, ∑ j, (lstm_step_backward dnext_h dnext_c (lstm_step_forward x prev_h prev_c Wx Wh b).2.2).dprev_c n j * vc n j) + (∑ d, ∑ k, (lstm_step_backward dnext_h dnext_c (lstm_step_forward x prev_h prev_c Wx Wh b).2.2).dWx d k * vWx d k) + (∑ m, ∑ k, (lstm_step_backward dnext_h dnext_c (lstm_step_forward x prev_h prev_c Wx Wh b).2.2).dWh m k * vWh m k) + (∑ k, (lstm_step_backward dnext_h dnext_c (lstm_step_forward x prev_h prev_c Wx Wh b).2.2).db k * vb k)) 0 := by
  have hentry : ∀ (n : Fin N) (j : Fin H),
      HasDerivAt
        (fun e => dnext_h n j * (lstm_step_forward (pert x vx e) (pert prev_h vh e) (pert prev_c vc e) (pert Wx vWx e) (pert Wh vWh e) (pertV b vb e)).1 n j + dnext_c n j * (lstm_step_forward (pert x vx e) (pert prev_h vh e) (pert prev_c vc e) (pert Wx vWx e) (pert Wh vWh e) (pertV b vb e)).2.1 n j)
        (lstmDCT dnext_h dnext_c (lstm_step_forward x prev_h prev_c Wx Wh b).2.2 n j * (lstm_step_forward x prev_h prev_c Wx Wh b).2.2.block_input n j * (lstm_step_forward x prev_h prev_c Wx Wh b).2.2.input n j * (1 - (lstm_step_forward x prev_h prev_c Wx Wh b).2.2.input n j) * aDir x vx prev_h vh Wx vWx Wh vWh vb n (blk H 0 j) + lstmDCT dnext_h dnext_c (lstm_step_forward x prev_h prev_c Wx Wh b).2.2 n j * (lstm_step_forward x prev_h prev_c Wx Wh b).2.2.prev_c n j * (lstm_step_forward x prev_h prev_c Wx Wh b).2.2.forget n j * (1 - (lstm_step_forward x prev_h prev_c Wx Wh b).2.2.forget n j) * aDir x vx prev_h vh Wx vWx Wh vWh vb n (blk H 1 j) + dnext_h n j * Real.tanh ((lstm_step_forward x prev_h prev_c Wx Wh b).2.2.next_c n j) * (lstm_step_forward x prev_h prev_c Wx Wh b).2.2.output n j * (1 - (lstm_step_forward x prev_h prev_c Wx Wh b).2.2.output n j) * aDir x vx prev_h vh Wx vWx Wh vWh vb n (blk H 2 j) + lstmDCT dnext_h dnext_c (lstm_step_forward x prev_h prev_c Wx Wh b).2.2 n j * (lstm_step_forward x prev_h prev_c Wx Wh b).2.2.input n j * (1 - (lstm_step_forward x prev_h prev_c Wx Wh b).2.2.block_input n j ^ 2) * aDir x vx prev_h vh Wx vWx Wh vWh vb n (blk H 3 j) + lstmDCT dnext_h dnext_c (lstm_step_forward x prev_h prev_c Wx Wh b).2.2 n j * (lstm_step_forward x prev_h prev_c Wx Wh b).2.2.forget n j * vc n j) 0 := by
    intro n j
    refine hasDerivAt_lstm_entry
      (fun e => lstmActivation (pert x vx e) (pert prev_h vh e) (pert Wx vWx e) (pert Wh vWh e) (pertV b vb e) n (blk H 0 j))
      (fun e => lstmActivation (pert x vx e) (pert prev_h vh e) (pert Wx vWx e) (pert Wh vWh e) (pertV b vb e) n (blk H 1 j))
      (fun e => lstmActivation (pert x vx e) (pert prev_h vh e) (pert Wx vWx e) (pert Wh vWh e) (pertV b vb e) n (blk H 2 j))
      (fun e => lstmActivation (pert x vx e) (pert prev_h vh e) (pert Wx vWx e) (pert Wh vWh e) (pertV b vb e) n (blk H 3 j))
      (fun e => pert prev_c vc e n j)
      (aDir x vx prev_h vh Wx vWx Wh vWh vb n (blk H 0 j)) (aDir x vx prev_h vh Wx vWx Wh vWh vb n (blk H 1 j))
      (aDir x vx prev_h vh Wx vWx Wh vWh vb n (blk H 2 j)) (aDir x vx prev_h vh Wx vWx Wh vWh vb n (blk H 3 j)) (vc n j)
      (dnext_h n j) (dnext_c n j)
      ((lstm_step_forward x prev_h prev_c Wx Wh b).2.2.input n j) ((lstm_step_forward x prev_h prev_c Wx Wh b).2.2.forget n j)
      ((lstm_step_forward x prev_h prev_c Wx Wh b).2.2.output n j) ((lstm_step_forward x prev_h prev_c Wx Wh b).2.2.block_input n j)
      ((lstm_step_forward x prev_h prev_c Wx Wh b).2.2.prev_c n j) ((lstm_step_forward x prev_h prev_c Wx Wh b).2.2.next_c n j)
      (lstmDCT dnext_h dnext_c (lstm_step_forward x prev_h prev_c Wx Wh b).2.2 n j)
      (hasDerivAt_activation_pert x vx prev_h vh Wx vWx Wh vWh b vb n
        (blk H 0 j))
      (hasDerivAt_activation_pert x vx prev_h vh Wx vWx Wh vWh b vb n
        (blk H 1 j))
      (hasDerivAt_activation_pert x vx prev_h vh Wx vWx Wh vWh b vb n
        (blk H 2 j))
      (hasDerivAt_activation_pert x vx prev_h vh Wx vWx Wh vWh b vb n
        (blk H 3 j))
      (hasDerivAt_affine (prev_c n j) (vc n j))
      ?_ ?_ ?_ ?_ ?_ ?_ ?_
    · simp only [pert_zero, pertV_zero]
      rfl
    · simp only [pert_zero, pertV_zero]
      rfl
    · simp only [pert_zero, pertV_zero]
      rfl
    · simp only [pert_zero, pertV_zero]
      rfl
    · simp only [pert_zero]
      rfl
    · rfl
    · rfl
  have hL : HasDerivAt
      (fun e => ∑ n, ∑ j, (dnext_h n j * (lstm_step_forward (pert x vx e) (pert prev_h vh e) (pert prev_c vc e) (pert Wx vWx e) (pert Wh vWh e) (pertV b vb e)).1 n j + dnext_c n j * (lstm_step_forward (pert x vx e) (pert prev_h vh e) (pert prev_c vc e) (pert Wx vWx e) (pert Wh vWh e) (pertV b vb e)).2.1 n j))
      (∑ n, ∑ j, (lstmDCT dnext_h dnext_c (lstm_step_forward x prev_h prev_c Wx Wh b).2.2 n j * (lstm_step_forward x prev_h prev_c Wx Wh b).2.2.block_input n j * (lstm_step_forward x prev_h prev_c Wx Wh b).2.2.input n j * (1 - (lstm_step_forward x prev_h prev_c Wx Wh b).2.2.input n j) * aDir x vx prev_h vh Wx vWx Wh vWh vb n (blk H 0 j) + lstmDCT dnext_h dnext_c (lstm_step_forward x prev_h prev_c Wx Wh b).2.2 n j * (lstm_step_forward x prev_h prev_c Wx Wh b).2.2.prev_c n j * (lstm_step_forward x prev_h prev_c Wx Wh b).2.2.forget n j * (1 - (lstm_step_forward x prev_h prev_c Wx Wh b).2.2.forget n j) * aDir x vx prev_h vh Wx vWx Wh vWh vb n (blk H 1 j) + dnext_h n j * Real.tanh ((lstm_step_forward x prev_h prev_c Wx Wh b).2.2.next_c n j) * (lstm_step_forward x prev_h prev_c Wx Wh b).2.2.output n j * (1 - (lstm_step_forward x prev_h prev_c Wx Wh b).2.2.output n j) * aDir x vx prev_h vh Wx vWx Wh vWh vb n (blk H 2 j) + lstmDCT dnext_h dnext_c (lstm_step_forward x prev_h prev_c Wx Wh b).2.2 n j * (lstm_step_forward x prev_h prev_c Wx Wh b).2.2.input n j * (1 - (lstm_step_forward x prev_h prev_c Wx Wh b).2.2.block_input n j ^ 2) * aDir x vx prev_h vh Wx vWx Wh vWh vb n (blk H 3 j) + lstmDCT dnext_h dnext_c (lstm_step_forward x prev_h prev_c Wx Wh b).2.2 n j * (lstm_step_forward x prev_h prev_c Wx Wh b).2.2.forget n j * vc n j)) 0 :=
    HasDerivAt.sum (fun n _ => HasDerivAt.sum (fun j _ => hentry n j))
  have h1 : ∀ (n : Fin N) (j : Fin H),
      (lstmDCT dnext_h dnext_c (lstm_step_forward x prev_h prev_c Wx Wh b).2.2 n j * (lstm_step_forward x prev_h prev_c Wx Wh b).2.2.block_input n j * (lstm_step_forward x prev_h prev_c Wx Wh b).2.2.input n j * (1 - (lstm_step_forward x prev_h prev_c Wx Wh b).2.2.input n j) * aDir x vx prev_h vh Wx vWx Wh vWh vb n (blk H 0 j) + lstmDCT dnext_h dnext_c (lstm_step_forward x prev_h prev_c Wx Wh b).2.2 n j * (lstm_step_forward x prev_h prev_c Wx Wh b).2.2.prev_c n j * (lstm_step_forward x prev_h prev_c Wx Wh b).2.2.forget n j * (1 - (lstm_step_forward x prev_h prev_c Wx Wh b).2.2.forget n j) * aDir x vx prev_h vh Wx vWx Wh vWh vb n (blk H 1 j) + dnext_h n j * Real.tanh ((lstm_step_forward x prev_h prev_c Wx Wh b).2.2.next_c n j) * (lstm_step_forward x prev_h prev_c Wx Wh b).2.2.output n j * (1 - (lstm_step_forward x prev_h prev_c Wx Wh b).2.2.output n j) * aDir x vx prev_h vh Wx vWx Wh vWh vb n (blk H 2 j) + lstmDCT dnext_h dnext_c (lstm_step_forward x prev_h prev_c Wx Wh b).2.2 n j * (lstm_step_forward x prev_h prev_c Wx Wh b).2.2.input n j * (1 - (lstm_step_forward x prev_h prev_c Wx Wh b).2.2.block_input n j ^ 2) * aDir x vx prev_h vh Wx vWx Wh vWh vb n (blk H 3 j) + lstmDCT dnext_h dnext_c (lstm_step_forward x prev_h prev_c Wx Wh b).2.2 n j * (lstm_step_forward x prev_h prev_c Wx Wh b).2.2.forget n j * vc n j)
        = lstmDActivation dnext_h dnext_c (lstm_step_forward x prev_h prev_c Wx Wh b).2.2 n (blk H 0 j) * aDir x vx prev_h vh Wx vWx Wh vWh vb n (blk H 0 j) + lstmDActivation dnext_h dnext_c (lstm_step_forward x prev_h prev_c Wx Wh b).2.2 n (blk H 1 j) * aDir x vx prev_h vh Wx vWx Wh vWh vb n (blk H 1 j) + lstmDActivation dnext_h dnext_c (lstm_step_forward x prev_h prev_c Wx Wh b).2.2 n (blk H 2 j) * aDir x vx prev_h vh Wx vWx Wh vWh vb n (blk H 2 j) + lstmDActivation dnext_h dnext_c (lstm_step_forward x prev_h prev_c Wx Wh b).2.2 n (blk H 3 j) * aDir x vx prev_h vh Wx vWx Wh vWh vb n (blk H 3 j) + (lstm_step_backward dnext_h dnext_c (lstm_step_forward x prev_h prev_c Wx Wh b).2.2).dprev_c n j * vc n j := by
    intro n j
    rw [lstmDActivation_blk0 dnext_h dnext_c (lstm_step_forward x prev_h prev_c Wx Wh b).2.2 n j,
      lstmDActivation_blk1 dnext_h dnext_c (lstm_step_forward x prev_h prev_c Wx Wh b).2.2 n j,
      lstmDActivation_blk2 dnext_h dnext_c (lstm_step_forward x prev_h prev_c Wx Wh b).2.2 n j,
      lstmDActivation_blk3 dnext_h dnext_c (lstm_step_forward x prev_h prev_c Wx Wh b).2.2 n j]
    rfl
  have h2 : (∑ n, ∑ j, (lstmDCT dnext_h dnext_c (lstm_step_forward x prev_h prev_c Wx Wh b).2.2 n j * (lstm_step_forward x prev_h prev_c Wx Wh b).2.2.block_input n j * (lstm_step_forward x prev_h prev_c Wx Wh b).2.2.input n j * (1 - (lstm_step_forward x prev_h prev_c Wx Wh b).2.2.input n j) * aDir x vx prev_h vh Wx vWx Wh vWh vb n (blk H 0 j) + lstmDCT dnext_h dnext_c (lstm_step_forward x prev_h prev_c Wx Wh b).2.2 n j * (lstm_step_forward x prev_h prev_c Wx Wh b).2.2.prev_c n j * (lstm_step_forward x prev_h prev_c Wx Wh b).2.2.forget n j * (1 - (lstm_step_forward x prev_h prev_c Wx Wh b).2.2.forget n j) * aDir x vx prev_h vh Wx vWx Wh vWh vb n (blk H 1 j) + dnext_h n j * Real.tanh ((lstm_step_forward x prev_h prev_c Wx Wh b).2.2.next_c n j) * (lstm_step_forward x prev_h prev_c Wx Wh b).2.2.output n j * (1 - (lstm_step_forward x prev_h prev_c Wx Wh b).2.2.output n j) * aDir x vx prev_h vh Wx vWx Wh vWh vb n (blk H 2 j) + lstmDCT dnext_h dnext_c (lstm_step_forward x prev_h prev_c Wx Wh b).2.2 n j * (lstm_step_forward x prev_h prev_c Wx Wh b).2.2.input n j * (1 - (lstm_step_forward x prev_h prev_c Wx Wh b).2.2.block_input n j ^ 2) * aDir x vx prev_h vh Wx vWx Wh vWh vb n (blk H 3 j) + lstmDCT dnext_h dnext_c (lstm_step_forward x prev_h prev_c Wx Wh b).2.2 n j * (lstm_step_forward x prev_h prev_c Wx Wh b).2.2.forget n j * vc n j))
      = (∑ n, ∑ k, lstmDActivation dnext_h dnext_c (lstm_step_forward x prev_h prev_c Wx Wh b).2.2 n k * aDir x vx prev_h vh Wx vWx Wh vWh vb n k)
        + (∑ n, ∑ j, (lstm_step_backward dnext_h dnext_c (lstm_step_forward x prev_h prev_c Wx Wh b).2.2).dprev_c n j * vc n j) := by
    calc ∑ n, ∑ j, (lstmDCT dnext_h dnext_c (lstm_step_forward x prev_h prev_c Wx Wh b).2.2 n j * (lstm_step_forward x prev_h prev_c Wx Wh b).2.2.block_input n j * (lstm_step_forward x prev_h prev_c Wx Wh b).2.2.input n j * (1 - (lstm_step_forward x prev_h prev_c Wx Wh b).2.2.input n j) * aDir x vx prev_h vh Wx vWx Wh vWh vb n (blk H 0 j) + lstmDCT dnext_h dnext_c (lstm_step_forward x prev_h prev_c Wx Wh b).2.2 n j * (lstm_step_forward x prev_h prev_c Wx Wh b).2.2.prev_c n j * (lstm_step_forward x prev_h prev_c Wx Wh b).2.2.forget n j * (1 - (lstm_step_forward x prev_h prev_c Wx Wh b).2.2.forget n j) * aDir x vx prev_h vh Wx vWx Wh vWh vb n (blk H 1 j) + dnext_h n j * Real.tanh ((lstm_step_forward x prev_h prev_c Wx Wh b).2.2.next_c n j) * (lstm_step_forward x prev_h prev_c Wx Wh b).2.2.output n j * (1 - (lstm_step_forward x prev_h prev_c Wx Wh b).2.2.output n j) * aDir x vx prev_h vh Wx vWx Wh vWh vb n (blk H 2 j) + lstmDCT dnext_h dnext_c (lstm_step_forward x prev_h prev_c Wx Wh b).2.2 n j * (lstm_step_forward x prev_h prev_c Wx Wh b).2.2.input n j * (1 - (lstm_step_forward x prev_h prev_c Wx Wh b).2.2.block_input n j ^ 2) * aDir x vx prev_h vh Wx vWx Wh vWh vb n (blk H 3 j) + lstmDCT dnext_h dnext_c (lstm_step_forward x prev_h prev_c Wx Wh b).2.2 n j * (lstm_step_forward x prev_h prev_c Wx Wh b).2.2.forget n j * vc n j)
        = ∑ n, ∑ j, (lstmDActivation dnext_h dnext_c (lstm_step_forward x prev_h prev_c Wx Wh b).2.2 n (blk H 0 j) * aDir x vx prev_h vh Wx vWx Wh vWh vb n (blk H 0 j) + lstmDActivation dnext_h dnext_c (lstm_step_forward x prev_h prev_c Wx Wh b).2.2 n (blk H 1 j) * aDir x vx prev_h vh Wx vWx Wh vWh vb n (blk H 1 j) + lstmDActivation dnext_h dnext_c (lstm_step_forward x prev_h prev_c Wx Wh b).2.2 n (blk H 2 j) * aDir x vx prev_h vh Wx vWx Wh vWh vb n (blk H 2 j) + lstmDActivation dnext_h dnext_c (lstm_step_forward x prev_h prev_c Wx Wh b).2.2 n (blk H 3 j) * aDir x vx prev_h vh Wx vWx Wh vWh vb n (blk H 3 j) + (lstm_step_backward dnext_h dnext_c (lstm_step_forward x prev_h prev_c Wx Wh b).2.2).dprev_c n j * vc n j) := by
          apply Finset.sum_congr rfl
          intro n _
          apply Finset.sum_congr rfl
          intro j _
          exact h1 n j
      _ = ∑ n, ((∑ j, (lstmDActivation dnext_h dnext_c (lstm_step_forward x prev_h prev_c Wx Wh b).2.2 n (blk H 0 j) * aDir x vx prev_h vh Wx vWx Wh vWh vb n (blk H 0 j)
              + lstmDActivation dnext_h dnext_c (lstm_step_forward x prev_h prev_c Wx Wh b).2.2 n (blk H 1 j) * aDir x vx prev_h vh Wx vWx Wh vWh vb n (blk H 1 j)
              + lstmDActivation dnext_h dnext_c (lstm_step_forward x prev_h prev_c Wx Wh b).2.2 n (blk H 2 j) * aDir x vx prev_h vh Wx vWx Wh vWh vb n (blk H 2 j)
              + lstmDActivation dnext_h dnext_c (lstm_step_forward x prev_h prev_c Wx Wh b).2.2 n (blk H 3 j) * aDir x vx prev_h vh Wx vWx Wh vWh vb n (blk H 3 j)))
            + (∑ j, (lstm_step_backward dnext_h dnext_c (lstm_step_forward x prev_h prev_c Wx Wh b).2.2).dprev_c n j * vc n j)) := by
          apply Finset.sum_congr rfl
          intro n _
          rw [Finset.sum_add_distrib]
      _ = ∑ n, ((∑ k, lstmDActivation dnext_h dnext_c (lstm_step_forward x prev_h prev_c Wx Wh b).2.2 n k * aDir x vx prev_h vh Wx vWx Wh vWh vb n k)
            + (∑ j, (lstm_step_backward dnext_h dnext_c (lstm_step_forward x prev_h prev_c Wx Wh b).2.2).dprev_c n j * vc n j)) := by
          apply Finset.sum_congr rfl
          intro n _
          congr 1
          exact (sum_four_blocks (fun k =>
            lstmDActivation dnext_h dnext_c (lstm_step_forward x prev_h prev_c Wx Wh b).2.2 n k * aDir x vx prev_h vh Wx vWx Wh vWh vb n k)).symm
      _ = _ := Finset.sum_add_distrib
  have h3 : (∑ n, ∑ k, lstmDActivation dnext_h dnext_c (lstm_step_forward x prev_h prev_c Wx Wh b).2.2 n k * aDir x vx prev_h vh Wx vWx Wh vWh vb n k)
      = (∑ n, ∑ d, (lstm_step_backward dnext_h dnext_c (lstm_step_forward x prev_h prev_c Wx Wh b).2.2).dx n d * vx n d) + (∑ n, ∑ j, (lstm_step_backward dnext_h dnext_c (lstm_step_forward x prev_h prev_c Wx Wh b).2.2).dprev_h n j * vh n j) + (∑ d, ∑ k, (lstm_step_backward dnext_h dnext_c (lstm_step_forward x prev_h prev_c Wx Wh b).2.2).dWx d k * vWx d k) + (∑ m, ∑ k, (lstm_step_backward dnext_h dnext_c (lstm_step_forward x prev_h prev_c Wx Wh b).2.2).dWh m k * vWh m k) + (∑ k, (lstm_step_backward dnext_h dnext_c (lstm_step_forward x prev_h prev_c Wx Wh b).2.2).db k * vb k) :=
    sum_rearrange (lstmDActivation dnext_h dnext_c (lstm_step_forward x prev_h prev_c Wx Wh b).2.2) Wx vWx Wh vWh vb x vx prev_h vh
  have hproj : (∑ n, ∑ j, (lstmDCT dnext_h dnext_c (lstm_step_forward x prev_h prev_c Wx Wh b).2.2 n j * (lstm_step_forward x prev_h prev_c Wx Wh b).2.2.block_input n j * (lstm_step_forward x prev_h prev_c Wx Wh b).2.2.input n j * (1 - (lstm_step_forward x prev_h prev_c Wx Wh b).2.2.input n j) * aDir x vx prev_h vh Wx vWx Wh vWh vb n (blk H 0 j) + lstmDCT dnext_h dnext_c (lstm_step_forward x prev_h prev_c Wx Wh b).2.2 n j * (lstm_step_forward x prev_h prev_c Wx Wh b).2.2.prev_c n j * (lstm_step_forward x prev_h prev_c Wx Wh b).2.2.forget n j * (1 - (lstm_step_forward x prev_h prev_c Wx Wh b).2.2.forget n j) * aDir x vx prev_h vh Wx vWx Wh vWh vb n (blk H 1 j) + dnext_h n j * Real.tanh ((lstm_step_forward x prev_h prev_c Wx Wh b).2.2.next_c n j) * (lstm_step_forward x prev_h prev_c Wx Wh b).2.2.output n j * (1 - (lstm_step_forward x prev_h prev_c Wx Wh b).2.2.output n j) * aDir x vx prev_h vh Wx vWx Wh vWh vb n (blk H 2 j) + lstmDCT dnext_h dnext_c (lstm_step_forward x prev_h prev_c Wx Wh b).2.2 n j * (lstm_step_forward x prev_h prev_c Wx Wh b).2.2.input n j * (1 - (lstm_step_forward x prev_h prev_c Wx Wh b).2.2.block_input n j ^ 2) * aDir x vx prev_h vh Wx vWx Wh vWh vb n (blk H 3 j) + lstmDCT dnext_h dnext_c (lstm_step_forward x prev_h prev_c Wx Wh b).2.2 n j * (lstm_step_forward x prev_h prev_c Wx Wh b).2.2.forget n j * vc n j))
      = (∑ n, ∑ d, (lstm_step_backward dnext_h dnext_c (lstm_step_forward x prev_h prev_c Wx Wh b).2.2).dx n d * vx n d) + (∑ n, ∑ j, (lstm_step_backward dnext_h dnext_c (lstm_step_forward x prev_h prev_c Wx Wh b).2.2).dprev_h n j * vh n j) + (∑ d, ∑ k, (lstm_step_backward dnext_h dnext_c (lstm_step_forward x prev_h prev_c Wx Wh b).2.2).dWx d k * vWx d k) + (∑ m, ∑ k, (lstm_step_backward dnext_h dnext_c (lstm_step_forward x prev_h prev_c Wx Wh b).2.2).dWh m k * vWh m k) + (∑ k, (lstm_step_backward dnext_h dnext_c (lstm_step_forward x prev_h prev_c Wx Wh b).2.2).db k * vb k) + (∑ n, ∑ j, (lstm_step_backward dnext_h dnext_c (lstm_step_forward x prev_h prev_c Wx Wh b).2.2).dprev_c n j * vc n j) := by
    rw [h2, h3]
  have heq : (∑ n, ∑ j, (lstmDCT dnext_h dnext_c (lstm_step_forward x prev_h prev_c Wx Wh b).2.2 n j * (lstm_step_forward x prev_h prev_c Wx Wh b).2.2.block_input n j * (lstm_step_forward x prev_h prev_c Wx Wh b).2.2.input n j * (1 - (lstm_step_forward x prev_h prev_c Wx Wh b).2.2.input n j) * aDir x vx prev_h vh Wx vWx Wh vWh vb n (blk H 0 j) + lstmDCT dnext_h dnext_c (lstm_step_forward x prev_h prev_c Wx Wh b).2.2 n j * (lstm_step_forward x prev_h prev_c Wx Wh b).2.2.prev_c n j * (lstm_step_forward x prev_h prev_c Wx Wh b).2.2.forget n j * (1 - (lstm_step_forward x prev_h prev_c Wx Wh b).2.2.forget n j) * aDir x vx prev_h vh Wx vWx Wh vWh vb n (blk H 1 j) + dnext_h n j * Real.tanh ((lstm_step_forward x prev_h prev_c Wx Wh b).2.2.next_c n j) * (lstm_step_forward x prev_h prev_c Wx Wh b).2.2.output n j * (1 - (lstm_step_forward x prev_h prev_c Wx Wh b).2.2.output n j) * aDir x vx prev_h vh Wx vWx Wh vWh vb n (blk H 2 j) + lstmDCT dnext_h dnext_c (lstm_step_forward x prev_h prev_c Wx Wh b).2.2 n j * (lstm_step_forward x prev_h prev_c Wx Wh b).2.2.input n j * (1 - (lstm_step_forward x prev_h prev_c Wx Wh b).2.2.block_input n j ^ 2) * aDir x vx prev_h vh Wx vWx Wh vWh vb n (blk H 3 j) + lstmDCT dnext_h dnext_c (lstm_step_forward x prev_h prev_c Wx Wh b).2.2 n j * (lstm_step_forward x prev_h prev_c Wx Wh b).2.2.forget n j * vc n j))
      = (∑ n, ∑ d, (lstm_step_backward dnext_h dnext_c (lstm_step_forward x prev_h prev_c Wx Wh b).2.2).dx n d * vx n d) + (∑ n, ∑ j, (lstm_step_backward dnext_h dnext_c (lstm_step_forward x prev_h prev_c Wx Wh b).2.2).dprev_h n j * vh n j) + (∑ n, ∑ j, (lstm_step_backward dnext_h dnext_c (lstm_step_forward x prev_h prev_c Wx Wh b).2.2).dprev_c n j * vc n j) + (∑ d, ∑ k, (lstm_step_backward dnext_h dnext_c (lstm_step_forward x prev_h prev_c Wx Wh b).2.2).dWx d k * vWx d k) + (∑ m, ∑ k, (lstm_step_backward dnext_h dnext_c (lstm_step_forward x prev_h prev_c Wx Wh b).2.2).dWh m k * vWh m k) + (∑ k, (lstm_step_backward dnext_h dnext_c (lstm_step_forward x prev_h prev_c Wx Wh b).2.2).db k * vb k) := by
    rw [hproj]
    ring
  exact heq ▸ hL

theorem tanh_one_pos : 0 < Real.tanh 1 := by
  rw [Real.tanh_eq_sinh_div_cosh]
  exact div_pos (Real.sinh_pos_iff.mpr one_pos) (Real.cosh_pos 1)

/-- C6 counterexample: the caches returned by `lstm_forward` do contain
the cell state — at a concrete input the returned step cache's `next_c`
field equals the step's internal cell state and is nonzero, so the cell
state does appear inside the returned values. -/
theorem lstm_forward_cache_contains_cell_state :
    ((@lstm_forward 1 1 1 1 (fun _ _ _ => 0) (fun _ _ => 0) (fun _ _ => 0)
        (fun _ _ => 0) (fun _ => 1)).2 0).next_c 0 0
      = (@lstmStepAt 1 1 1 1 (fun _ _ _ => 0) (fun _ _ => 0) (fun _ _ => 0)
          (fun _ _ => 0) (fun _ => 1) 0).2.1 0 0
    ∧ ((@lstm_forward 1 1 1 1 (fun _ _ _ => 0) (fun _ _ => 0) (fun _ _ => 0)
        (fun _ _ => 0) (fun _ => 1)).2 0).next_c 0 0 ≠ 0 := by
  constructor
  · rfl
  · have hval : ∀ k : Fin (4*1),
        lstmActivation (fun (_ : Fin 1) (_ : Fin 1) => (0:ℝ)) (fun _ _ => 0)
          (fun _ _ => 0) (fun _ _ => 0) (fun _ => 1) 0 k = 1 := by
      intro k
      simp [lstmActivation]
    show lstmNextC
        (lstmActivation (fun _ _ => (0:ℝ)) (fun _ _ => 0) (fun _ _ => 0)
          (fun _ _ => 0) (fun _ => 1)) (fun _ _ => 0) 0 0 ≠ 0
    unfold lstmNextC gateI gateF gateG
    rw [hval, hval, hval]
    rw [sigmoid_eq_logistic]
    have h1 := logistic_pos 1
    have h2 := tanh_one_pos
    simp only [mul_zero, zero_add]
    exact ne_of_gt (mul_pos h1 h2)
